import Mathlib

/-!
Verification development for the shortcutcleaner repository
(shortcutcleaner/shortcutcleaner.py).

The embedding covers the shortcut classifier (is_valid_url,
is_broken_shortcut, is_target_drive_missing together with their string
helpers urlparse, os.path.splitext and ntpath.splitdrive) and the
breadth-first directory walker search_loop.  Filesystem lookups that the
classifier performs on target paths (os.path.isfile, os.path.isdir,
os.path.exists) are an explicit oracle parameter PyFS, held fixed during a
walk.  The scanned directory tree is an explicit finite tree; what the
platform link parser would return for each regular file (com_error, or a
CDispatch object carrying a TargetPath) is recorded in the tree.  Console
output is modelled as a list of structured events, one per print call of the
source, carrying the interpolated values.  The walker is modelled without a
stop_event, matching the batch invocation search_loop(start_dir, delete,
removable_drives) from main.
-/

namespace ShortcutCleaner

/-- ASCII lowercase of a string, as Python str.lower acts on the ASCII
strings this program compares. -/
def strLower (s : String) : String := String.mk (s.toList.map Char.toLower)

/-- Characters of the last path component: everything after the final
backslash or forward slash (sep and altsep of os.path on Windows). -/
def basenameChars (l : List Char) : List Char :=
  (l.reverse.takeWhile (fun c => !(c == '\\' || c == '/'))).reverse

/-- Extension part of os.path.splitext: the suffix of the basename that
starts at its last dot, except that dots leading the basename never begin an
extension (splitext of dot bashrc has empty extension). -/
def extOf (p : String) : String :=
  let base := basenameChars p.toList
  let rest := base.dropWhile (fun c => c == '.')
  if rest.contains '.' then
    String.mk ('.' :: (rest.reverse.takeWhile (fun c => !(c == '.'))).reverse)
  else ""

/-- The three fields of the urllib.parse.urlparse result that the program
reads: scheme, netloc and path. -/
structure UrlParts where
  scheme : String
  netloc : String
  path : String
deriving DecidableEq

/-- Characters allowed after the first letter of a URL scheme in CPython
urlsplit: letters, digits, plus, minus and dot. -/
def schemeChar (c : Char) : Bool := c.isAlphanum || c == '+' || c == '-' || c == '.'

/-- Shallow embedding of urllib.parse.urlparse, restricted to the scheme,
netloc and path fields.  It follows CPython urlsplit: tab, carriage return
and line feed characters are removed first; a scheme is an ASCII letter
followed by scheme characters, ending at the first colon, and is lowercased;
a netloc follows a leading double slash and runs to the next slash, question
mark or hash; the path is what remains before any fragment or query.
Parameter splitting at semicolons and IPv6 bracket validation are not
exercised by the program and are not modelled. -/
def urlparse (url : String) : UrlParts :=
  let l := url.toList.filter (fun c => !(c == '\t' || c == '\r' || c == '\n'))
  let before := l.takeWhile (fun c => !(c == ':'))
  let afterc := l.dropWhile (fun c => !(c == ':'))
  let sr : List Char × List Char :=
    match afterc, before with
    | _ :: after, c0 :: cs =>
      if c0.isAlpha && cs.all schemeChar then ((c0 :: cs).map Char.toLower, after)
      else ([], l)
    | _, _ => ([], l)
  let nr : List Char × List Char :=
    match sr.2 with
    | '/' :: '/' :: r =>
      (r.takeWhile (fun c => !(c == '/' || c == '?' || c == '#')),
       r.dropWhile (fun c => !(c == '/' || c == '?' || c == '#')))
    | rest => ([], rest)
  let pathChars := (nr.2.takeWhile (fun c => !(c == '#'))).takeWhile (fun c => !(c == '?'))
  ⟨String.mk sr.1, String.mk nr.1, String.mk pathChars⟩

/-- Python str.strip with strip set consisting of the slash character: drops
leading and trailing slashes. -/
def stripSlash (s : String) : String :=
  String.mk (((s.toList.dropWhile (fun c => c == '/')).reverse.dropWhile
    (fun c => c == '/')).reverse)

/-- First index at or after position start that holds character c. -/
def idxFrom (l : List Char) (c : Char) (start : Nat) : Option Nat :=
  ((l.drop start).findIdx? (fun x => x == c)).map (fun i => i + start)

/-- Drive component of ntpath.splitdrive: a two character letter-colon
drive, or a UNC prefix of the form double separator, machine, separator,
mountpoint.  Forward slashes count as separators. -/
def splitdriveDrive (p : String) : String :=
  let l := p.toList
  let n := l.map (fun c => if c == '/' then '\\' else c)
  if 2 ≤ n.length then
    if n.take 2 = ['\\', '\\'] ∧ (n.drop 2).take 1 ≠ ['\\'] then
      match idxFrom n '\\' 2 with
      | none => ""
      | some index =>
        match idxFrom n '\\' (index + 1) with
        | none => String.mk l
        | some index2 =>
          if index2 = index + 1 then "" else String.mk (l.take index2)
    else if (n.drop 1).take 1 = [':'] then String.mk (l.take 2)
    else ""
  else ""

/-- Oracle for the filesystem lookups the classifier performs on recorded
target paths: os.path.isfile, os.path.isdir and os.path.exists.  A parameter
of the embedding because targets may name any path on the machine; it is
held fixed during a walk. -/
structure PyFS where
  isfile : String → Bool
  isdir : String → Bool
  pexists : String → Bool

def FILE_SHORTCUT_EXT : String := ".lnk"
def NET_SHORTCUT_EXT : String := ".url"

/-- Embedding of is_valid_url (shortcutcleaner.py lines 109 to 125) on string
input; the ValueError branch for non-string input is a caller programming
error and is outside the embedding. -/
def is_valid_url (fs : PyFS) (url : String) : Bool :=
  let result := urlparse url
  if result.scheme ≠ "" ∧ result.scheme = "file" ∧ result.netloc = "" ∧ result.path ≠ "" then
    let path := stripSlash result.path
    fs.isfile path || fs.isdir path
  else
    decide (result.scheme ≠ "" ∧ result.netloc ≠ "")

/-- Fields of the WScript.Shell shortcut CDispatch object that the program
reads. -/
structure ShortcutObj where
  FullName : String
  TargetPath : String
deriving DecidableEq

/-- Exceptional outcomes of the classifier: com_error raised by CreateShortCut
on a file that is not a shortcut, NoTargetPathException, and
UnfamiliarShortcutExtException.  The payload of the latter two is the
FullName placed in the message and in the path attribute. -/
inductive ScError where
  | comError : ScError
  | noTargetPath : String → ScError
  | unfamiliarExt : String → ScError
deriving DecidableEq

/-- Embedding of shortcut_has_ext (lines 90 to 107) in its CDispatch branch:
the walker always passes objects produced by get_shortcut_object, and the
string and Path branches compute the same lowercased extension of the same
name. -/
def shortcut_has_ext (sc : ShortcutObj) (ext : String) : Bool :=
  strLower (extOf sc.FullName) == ext

/-- What the platform link parser yields for one on-disk file: none when
WScript.Shell.CreateShortCut raises com_error (the file is not a shortcut),
otherwise the recorded TargetPath string; together with the os.path.getsize
byte size of the file. -/
structure FileInfo where
  target : Option String
  size : Nat
deriving DecidableEq

/-- Embedding of get_shortcut_object (lines 128 to 148) applied to a path:
the COM shell returns a CDispatch whose FullName is the opened path and
whose TargetPath is the recorded target, or raises com_error. -/
def get_shortcut_object (path : String) (info : FileInfo) : Except ScError ShortcutObj :=
  match info.target with
  | none => Except.error ScError.comError
  | some t => Except.ok ⟨path, t⟩

/-- Embedding of is_broken_shortcut (lines 150 to 189) applied to a CDispatch
object. -/
def is_broken_shortcut_obj (fs : PyFS) (sc : ShortcutObj) : Except ScError Bool :=
  if shortcut_has_ext sc FILE_SHORTCUT_EXT then
    if sc.TargetPath = "" then Except.error (ScError.noTargetPath sc.FullName)
    else Except.ok (!(fs.isfile sc.TargetPath || fs.isdir sc.TargetPath))
  else if shortcut_has_ext sc NET_SHORTCUT_EXT then
    Except.ok (!(is_valid_url fs sc.TargetPath))
  else Except.error (ScError.unfamiliarExt sc.FullName)

/-- is_broken_shortcut on a path, composing get_shortcut_object as the source
does on line 166. -/
def is_broken_shortcut (fs : PyFS) (path : String) (info : FileInfo) : Except ScError Bool :=
  (get_shortcut_object path info).bind (fun sc => is_broken_shortcut_obj fs sc)

/-- Embedding of is_target_drive_missing (lines 191 to 228) applied to a
CDispatch object. -/
def is_target_drive_missing_obj (fs : PyFS) (sc : ShortcutObj) : Except ScError Bool :=
  if shortcut_has_ext sc FILE_SHORTCUT_EXT then
    if sc.TargetPath = "" then Except.error (ScError.noTargetPath sc.FullName)
    else Except.ok (!(fs.pexists (splitdriveDrive sc.TargetPath)))
  else if shortcut_has_ext sc NET_SHORTCUT_EXT then Except.ok false
  else Except.error (ScError.unfamiliarExt sc.FullName)

/-- is_target_drive_missing on a path, composing get_shortcut_object as the
source does on line 206. -/
def is_target_drive_missing (fs : PyFS) (path : String) (info : FileInfo) :
    Except ScError Bool :=
  (get_shortcut_object path info).bind (fun sc => is_target_drive_missing_obj fs sc)

/-- One console line of search_loop, as a structured event carrying the
values the source interpolates into the printed string.  In order of the
print statements of the source: lines 244, 246, 247, 266, 268, 293, print of
str(e) on line 285 for NoTargetPathException and
UnfamiliarShortcutExtException (both messages name the FullName), line 301
for a PermissionError naming the directory, and the two final lines 306 and
307 (elapsed wall-clock time carries no modelled payload). -/
inductive Event where
  | startingSearch : String → Event
  | deletingBroken : Event
  | ignoringDrives : List String → Event
  | foundMissingDrive : String → String → Event
  | ignoringRemovable : String → Event
  | foundBroken : String → Event
  | exceptionReport : String → Event
  | permissionDenied : String → Event
  | took : Event
  | summary : Nat → Nat → Event
deriving DecidableEq

/-- Mutable state of search_loop: the console output so far, the running
totals total_count and total_size, the paths passed to os.remove so far, and
a ghost counter of loop iterations (directories dequeued from
dirs_to_search), which the source does not store but which lets theorems
speak about how many directories the walk listed. -/
structure LoopState where
  events : List Event
  count : Nat
  size : Nat
  removed : List String
  dirsDequeued : Nat
deriving DecidableEq

/-- os.path.join of a directory path and a name produced by os.listdir: the
separator is inserted unless the directory path is empty or already ends in
a separator or a colon.  Names from os.listdir never carry drives or
separators, so the remaining branches of ntpath.join cannot fire. -/
def pjoin (a b : String) : String :=
  if a = "" then b
  else if (a.toList.getLast?).any (fun c => c == '\\' || c == '/' || c == ':') then a ++ b
  else a ++ "\\" ++ b

/-- The classification block of search_loop for one regular file (lines 261
to 286): the try statement around is_target_drive_missing and
is_broken_shortcut.  Returns the final value of the broken flag together
with the console events the block prints.  com_error is passed over
silently; NoTargetPathException and UnfamiliarShortcutExtException print
their message and leave broken false.  In the missing-drive branch the
source re-reads the shortcut object and its drive, then prints the
missing-drive line, and membership of the drive in removable_drives decides
the flag.  The AttributeError handler of line 282 cannot fire in the
embedding because a ShortcutObj always carries its FullName and TargetPath
fields, as the real COM objects do. -/
def visitFile (fs : PyFS) (drives : List String) (path : String) (info : FileInfo) :
    Bool × List Event :=
  match is_target_drive_missing fs path info with
  | Except.error ScError.comError => (false, [])
  | Except.error (ScError.noTargetPath fn) => (false, [Event.exceptionReport fn])
  | Except.error (ScError.unfamiliarExt fn) => (false, [Event.exceptionReport fn])
  | Except.ok true =>
    match get_shortcut_object path info with
    | Except.error _ => (false, [])
    | Except.ok sc =>
      let drive := splitdriveDrive sc.TargetPath
      if drive ∈ drives then
        (false, [Event.foundMissingDrive drive path, Event.ignoringRemovable drive])
      else (true, [Event.foundMissingDrive drive path])
  | Except.ok false =>
    match is_broken_shortcut fs path info with
    | Except.ok b => (b, [])
    | Except.error ScError.comError => (false, [])
    | Except.error (ScError.noTargetPath fn) => (false, [Event.exceptionReport fn])
    | Except.error (ScError.unfamiliarExt fn) => (false, [Event.exceptionReport fn])

/-- Full handling of one regular file by search_loop (lines 261 to 293):
classify it with visitFile, then, when broken, add the file size and count
and either remove the file (delete mode) or print the found-broken line. -/
def processFile (fs : PyFS) (drives : List String) (delete : Bool) (path : String)
    (info : FileInfo) (st : LoopState) : LoopState :=
  let r := visitFile fs drives path info
  let st1 := { st with events := st.events ++ r.2 }
  if r.1 then
    let st2 := { st1 with size := st1.size + info.size, count := st1.count + 1 }
    if delete then { st2 with removed := st2.removed ++ [path] }
    else { st2 with events := st2.events ++ [Event.foundBroken path] }
  else st1

mutual
/-- One directory of the scanned tree: whether os.listdir raises
PermissionError on it, and otherwise its entries in listing order. -/
inductive DirTree where
  | mk (denied : Bool) (entries : List Entry)
/-- One directory entry: a regular file together with what the link parser
yields for it, or a subdirectory.  Entries that are neither regular files
nor directories are skipped by the walker (lines 260 and 294) and are not
modelled. -/
inductive Entry where
  | file (name : String) (info : FileInfo)
  | subdir (name : String) (tree : DirTree)
end

mutual
/-- Number of nodes of a directory tree, the termination measure of the
walk and of the structural inductions below. -/
def treeSize : DirTree → Nat
  | DirTree.mk _ es => 1 + entriesSize es
/-- Number of nodes of an entry list. -/
def entriesSize : List Entry → Nat
  | [] => 0
  | Entry.file _ _ :: es => 1 + entriesSize es
  | Entry.subdir _ t :: es => 1 + treeSize t + entriesSize es
end

/-- The subdirectories a directory listing appends to dirs_to_search, joined
onto the listed directory path, in listing order (line 295). -/
def subdirsOf (dirPath : String) : List Entry → List (String × DirTree)
  | [] => []
  | Entry.file _ _ :: es => subdirsOf dirPath es
  | Entry.subdir name t :: es => (pjoin dirPath name, t) :: subdirsOf dirPath es

/-- The body of the for statement over os.listdir (lines 258 to 295): walk
the entries in listing order, classifying regular files into the state and
appending subdirectories to the work queue. -/
def processEntries (fs : PyFS) (drives : List String) (delete : Bool) (dirPath : String) :
    List Entry → LoopState → List (String × DirTree) → LoopState × List (String × DirTree)
  | [], st, q => (st, q)
  | Entry.file name info :: es, st, q =>
    processEntries fs drives delete dirPath es
      (processFile fs drives delete (pjoin dirPath name) info st) q
  | Entry.subdir name t :: es, st, q =>
    processEntries fs drives delete dirPath es st (q ++ [(pjoin dirPath name, t)])

theorem processEntries_queue (fs : PyFS) (drives : List String) (delete : Bool)
    (dirPath : String) :
    ∀ (es : List Entry) (st : LoopState) (q : List (String × DirTree)),
      (processEntries fs drives delete dirPath es st q).2 = q ++ subdirsOf dirPath es := by
  intro es
  induction es with
  | nil => intro st q; simp [processEntries, subdirsOf]
  | cons e es ih =>
    intro st q
    cases e with
    | file name info => simp [processEntries, subdirsOf, ih]
    | subdir name t => simp [processEntries, subdirsOf, ih]

/-- Total tree size of a work queue, the termination measure of the walk. -/
def queueSize (q : List (String × DirTree)) : Nat :=
  (q.map (fun pt => treeSize pt.2)).sum

theorem queueSize_cons (p : String × DirTree) (q : List (String × DirTree)) :
    queueSize (p :: q) = treeSize p.2 + queueSize q := by
  simp [queueSize]

theorem queueSize_append (a b : List (String × DirTree)) :
    queueSize (a ++ b) = queueSize a + queueSize b := by
  simp [queueSize]

theorem queueSize_subdirsOf (dirPath : String) :
    ∀ es : List Entry, queueSize (subdirsOf dirPath es) ≤ entriesSize es := by
  intro es
  induction es with
  | nil => simp [subdirsOf, queueSize]
  | cons e es ih =>
    cases e with
    | file name info =>
      simp only [subdirsOf, entriesSize]
      omega
    | subdir name t =>
      simp only [subdirsOf, entriesSize, queueSize_cons]
      omega

/-- The while loop of search_loop (lines 254 to 304): dequeue the first
pending directory; when its listing raises PermissionError print the error
and move on; otherwise fold the entry loop over its listing, which updates
the state and extends the queue. -/
def searchLoopAux (fs : PyFS) (drives : List String) (delete : Bool) :
    List (String × DirTree) → LoopState → LoopState
  | [], st => st
  | (p, DirTree.mk true _es) :: rest, st =>
    searchLoopAux fs drives delete rest
      { st with events := st.events ++ [Event.permissionDenied p],
                dirsDequeued := st.dirsDequeued + 1 }
  | (p, DirTree.mk false es) :: rest, st =>
    searchLoopAux fs drives delete
      (processEntries fs drives delete p es
        { st with dirsDequeued := st.dirsDequeued + 1 } rest).2
      (processEntries fs drives delete p es
        { st with dirsDequeued := st.dirsDequeued + 1 } rest).1
termination_by q _ => queueSize q
decreasing_by
  · simp only [queueSize_cons, treeSize]
    omega
  · rw [processEntries_queue, queueSize_append, queueSize_cons]
    have h1 : queueSize (subdirsOf p es) ≤ entriesSize es := queueSize_subdirsOf p es
    simp only [treeSize]
    omega

/-- The state search_loop starts its while loop with: the opening console
lines of source lines 244 to 247 (starting directory, the delete notice,
the removable drives list) and zeroed totals. -/
def initState (start_dir : String) (delete : Bool) (drives : List String) : LoopState :=
  { events := [Event.startingSearch start_dir]
      ++ (if delete then [Event.deletingBroken] else [])
      ++ [Event.ignoringDrives drives],
    count := 0, size := 0, removed := [], dirsDequeued := 0 }

/-- Embedding of search_loop (lines 230 to 307) run without a stop_event, as
invoked from main: print the opening lines, run the while loop from the
queue holding the start directory, then print the elapsed-time line and the
summary line with the final totals. -/
def search_loop (fs : PyFS) (start_dir : String) (delete : Bool)
    (drives : List String) (tree : DirTree) : LoopState :=
  let st := searchLoopAux fs drives delete [(start_dir, tree)]
    (initState start_dir delete drives)
  { st with events := st.events ++ [Event.took, Event.summary st.count st.size] }

/-- Aggregate effect of a piece of the walk on the loop state: console
events and removed paths as multisets (the breadth-first visit order is not
part of any claim), broken count, broken byte total, and directories
listed. -/
abbrev Contrib := Multiset Event × Nat × Nat × Multiset String × Nat

def cEvents (c : Contrib) : Multiset Event := c.1

def cCount (c : Contrib) : Nat := c.2.1

def cSize (c : Contrib) : Nat := c.2.2.1

def cRemoved (c : Contrib) : Multiset String := c.2.2.2.1

def cDirs (c : Contrib) : Nat := c.2.2.2.2

/-- The loop state read as an aggregate, forgetting order. -/
def toContrib (st : LoopState) : Contrib :=
  ((st.events : Multiset Event), st.count, st.size, (st.removed : Multiset String),
    st.dirsDequeued)

/-- Aggregate effect of processFile on one regular file. -/
def fileContrib (fs : PyFS) (drives : List String) (delete : Bool) (path : String)
    (info : FileInfo) : Contrib :=
  let r := visitFile fs drives path info
  (((r.2 : Multiset Event)) + (if r.1 && !delete then {Event.foundBroken path} else 0),
   if r.1 then 1 else 0,
   if r.1 then info.size else 0,
   if r.1 && delete then {path} else 0,
   0)

theorem processFile_contrib (fs : PyFS) (drives : List String) (delete : Bool)
    (path : String) (info : FileInfo) (st : LoopState) :
    toContrib (processFile fs drives delete path info st)
      = toContrib st + fileContrib fs drives delete path info := by
  unfold processFile fileContrib
  cases hb : (visitFile fs drives path info).1 <;> cases delete <;>
    simp [toContrib, hb, Prod.ext_iff, ← Multiset.coe_singleton, Multiset.coe_add]

mutual
/-- Aggregate effect of the walk on one directory of the tree: the
permission-denied report when its listing fails, otherwise the effects of
its files and, recursively, of its subdirectories.  Each directory counts
once as listed. -/
def collectTree (fs : PyFS) (drives : List String) (delete : Bool) (p : String) :
    DirTree → Contrib
  | DirTree.mk true _ => ({Event.permissionDenied p}, 0, 0, 0, 1)
  | DirTree.mk false es => ((0 : Multiset Event), 0, 0, 0, 1)
      + collectEntries fs drives delete p es
/-- Aggregate effect of the walk on an entry list of a directory at path p. -/
def collectEntries (fs : PyFS) (drives : List String) (delete : Bool) (p : String) :
    List Entry → Contrib
  | [] => 0
  | Entry.file name info :: es =>
    fileContrib fs drives delete (pjoin p name) info + collectEntries fs drives delete p es
  | Entry.subdir name t :: es =>
    collectTree fs drives delete (pjoin p name) t + collectEntries fs drives delete p es
end

/-- Aggregate effect of the regular files of one directory listing alone. -/
def filesContrib (fs : PyFS) (drives : List String) (delete : Bool) (p : String) :
    List Entry → Contrib
  | [] => 0
  | Entry.file name info :: es =>
    fileContrib fs drives delete (pjoin p name) info + filesContrib fs drives delete p es
  | Entry.subdir _ _ :: es => filesContrib fs drives delete p es

/-- Aggregate effect of a whole work queue. -/
def queueContrib (fs : PyFS) (drives : List String) (delete : Bool)
    (q : List (String × DirTree)) : Contrib :=
  (q.map (fun pt => collectTree fs drives delete pt.1 pt.2)).sum

theorem queueContrib_nil (fs : PyFS) (drives : List String) (delete : Bool) :
    queueContrib fs drives delete [] = 0 := by
  simp [queueContrib]

theorem queueContrib_cons (fs : PyFS) (drives : List String) (delete : Bool)
    (x : String × DirTree) (q : List (String × DirTree)) :
    queueContrib fs drives delete (x :: q)
      = collectTree fs drives delete x.1 x.2 + queueContrib fs drives delete q := by
  simp [queueContrib]

theorem queueContrib_append (fs : PyFS) (drives : List String) (delete : Bool)
    (a b : List (String × DirTree)) :
    queueContrib fs drives delete (a ++ b)
      = queueContrib fs drives delete a + queueContrib fs drives delete b := by
  simp [queueContrib]

theorem collectEntries_split (fs : PyFS) (drives : List String) (delete : Bool)
    (p : String) (es : List Entry) :
    collectEntries fs drives delete p es
      = filesContrib fs drives delete p es + queueContrib fs drives delete (subdirsOf p es) := by
  induction es with
  | nil => simp [collectEntries, filesContrib, subdirsOf, queueContrib]
  | cons e es ih =>
    cases e with
    | file name info =>
      simp only [collectEntries, filesContrib, subdirsOf, ih]
      abel
    | subdir name t =>
      simp only [collectEntries, filesContrib, subdirsOf, ih, queueContrib_cons]
      abel

theorem processEntries_state (fs : PyFS) (drives : List String) (delete : Bool)
    (dirPath : String) :
    ∀ (es : List Entry) (st : LoopState) (q : List (String × DirTree)),
      toContrib (processEntries fs drives delete dirPath es st q).1
        = toContrib st + filesContrib fs drives delete dirPath es := by
  intro es
  induction es with
  | nil => intro st q; simp [processEntries, filesContrib]
  | cons e es ih =>
    intro st q
    cases e with
    | file name info =>
      simp only [processEntries, filesContrib, ih, processFile_contrib]
      abel
    | subdir name t =>
      simp only [processEntries, filesContrib, ih]

theorem toContrib_addEvents_dirs (st : LoopState) (l : List Event) :
    toContrib { st with events := st.events ++ l, dirsDequeued := st.dirsDequeued + 1 }
      = toContrib st + ((l : Multiset Event), 0, 0, 0, 1) := by
  simp [toContrib, Prod.ext_iff, Multiset.coe_add]

theorem toContrib_dirs (st : LoopState) :
    toContrib { st with dirsDequeued := st.dirsDequeued + 1 }
      = toContrib st + (((0 : Multiset Event), 0, 0, 0, 1) : Contrib) := by
  simp [toContrib, Prod.ext_iff]

/-- The master accounting lemma: running the while loop from any queue and
state yields the state aggregate plus the tree-structural aggregate of the
queued directories. -/
theorem searchLoopAux_contrib (fs : PyFS) (drives : List String) (delete : Bool)
    (q : List (String × DirTree)) (st : LoopState) :
    toContrib (searchLoopAux fs drives delete q st)
      = toContrib st + queueContrib fs drives delete q := by
  match q with
  | [] => simp [searchLoopAux, queueContrib_nil]
  | (p, DirTree.mk true es) :: rest =>
    have ih := searchLoopAux_contrib fs drives delete rest
      { st with events := st.events ++ [Event.permissionDenied p],
                dirsDequeued := st.dirsDequeued + 1 }
    simp only [searchLoopAux]
    rw [ih, queueContrib_cons, toContrib_addEvents_dirs]
    simp only [collectTree, Multiset.coe_singleton]
    rw [add_assoc]
  | (p, DirTree.mk false es) :: rest =>
    have ih := searchLoopAux_contrib fs drives delete
      (processEntries fs drives delete p es
        { st with dirsDequeued := st.dirsDequeued + 1 } rest).2
      (processEntries fs drives delete p es
        { st with dirsDequeued := st.dirsDequeued + 1 } rest).1
    simp only [searchLoopAux]
    rw [ih, processEntries_state, processEntries_queue, queueContrib_append,
      queueContrib_cons, toContrib_dirs]
    simp only [collectTree, collectEntries_split]
    abel
termination_by queueSize q
decreasing_by
  · simp only [queueSize_cons, treeSize]
    omega
  · rw [processEntries_queue, queueSize_append, queueSize_cons]
    have h1 : queueSize (subdirsOf p es) ≤ entriesSize es := queueSize_subdirsOf p es
    simp only [treeSize]
    omega

theorem cEvents_add (a b : Contrib) : cEvents (a + b) = cEvents a + cEvents b := rfl

theorem cCount_add (a b : Contrib) : cCount (a + b) = cCount a + cCount b := rfl

theorem cSize_add (a b : Contrib) : cSize (a + b) = cSize a + cSize b := rfl

theorem cRemoved_add (a b : Contrib) : cRemoved (a + b) = cRemoved a + cRemoved b := rfl

theorem cDirs_add (a b : Contrib) : cDirs (a + b) = cDirs a + cDirs b := rfl

/-- The state of search_loop right after its while loop finishes. -/
def search_loop_body (fs : PyFS) (start_dir : String) (delete : Bool)
    (drives : List String) (tree : DirTree) : LoopState :=
  searchLoopAux fs drives delete [(start_dir, tree)] (initState start_dir delete drives)

theorem search_loop_body_contrib (fs : PyFS) (start_dir : String) (delete : Bool)
    (drives : List String) (tree : DirTree) :
    toContrib (search_loop_body fs start_dir delete drives tree)
      = toContrib (initState start_dir delete drives)
        + collectTree fs drives delete start_dir tree := by
  unfold search_loop_body
  rw [searchLoopAux_contrib]
  simp [queueContrib]

theorem search_loop_eq_body (fs : PyFS) (start_dir : String) (delete : Bool)
    (drives : List String) (tree : DirTree) :
    search_loop fs start_dir delete drives tree
      = { search_loop_body fs start_dir delete drives tree with
          events := (search_loop_body fs start_dir delete drives tree).events
            ++ [Event.took,
                Event.summary (search_loop_body fs start_dir delete drives tree).count
                  (search_loop_body fs start_dir delete drives tree).size] } := rfl

theorem search_loop_count (fs : PyFS) (start_dir : String) (delete : Bool)
    (drives : List String) (tree : DirTree) :
    (search_loop fs start_dir delete drives tree).count
      = cCount (collectTree fs drives delete start_dir tree) := by
  have h := congrArg cCount (search_loop_body_contrib fs start_dir delete drives tree)
  rw [search_loop_eq_body]
  simpa [cCount_add, toContrib, cCount, initState] using h

theorem search_loop_size (fs : PyFS) (start_dir : String) (delete : Bool)
    (drives : List String) (tree : DirTree) :
    (search_loop fs start_dir delete drives tree).size
      = cSize (collectTree fs drives delete start_dir tree) := by
  have h := congrArg cSize (search_loop_body_contrib fs start_dir delete drives tree)
  rw [search_loop_eq_body]
  simpa [cSize_add, toContrib, cSize, initState] using h

theorem search_loop_removed (fs : PyFS) (start_dir : String) (delete : Bool)
    (drives : List String) (tree : DirTree) :
    ((search_loop fs start_dir delete drives tree).removed : Multiset String)
      = cRemoved (collectTree fs drives delete start_dir tree) := by
  have h := congrArg cRemoved (search_loop_body_contrib fs start_dir delete drives tree)
  rw [search_loop_eq_body]
  simpa [cRemoved_add, toContrib, cRemoved, initState] using h

theorem search_loop_dirs (fs : PyFS) (start_dir : String) (delete : Bool)
    (drives : List String) (tree : DirTree) :
    (search_loop fs start_dir delete drives tree).dirsDequeued
      = cDirs (collectTree fs drives delete start_dir tree) := by
  have h := congrArg cDirs (search_loop_body_contrib fs start_dir delete drives tree)
  rw [search_loop_eq_body]
  simpa [cDirs_add, toContrib, cDirs, initState] using h

theorem search_loop_events (fs : PyFS) (start_dir : String) (delete : Bool)
    (drives : List String) (tree : DirTree) :
    ((search_loop fs start_dir delete drives tree).events : Multiset Event)
      = ((initState start_dir delete drives).events : Multiset Event)
        + cEvents (collectTree fs drives delete start_dir tree)
        + ((([Event.took,
            Event.summary (cCount (collectTree fs drives delete start_dir tree))
              (cSize (collectTree fs drives delete start_dir tree))]) : List Event) :
            Multiset Event) := by
  have h := congrArg cEvents (search_loop_body_contrib fs start_dir delete drives tree)
  have hc := congrArg cCount (search_loop_body_contrib fs start_dir delete drives tree)
  have hs := congrArg cSize (search_loop_body_contrib fs start_dir delete drives tree)
  rw [search_loop_eq_body]
  simp only [cEvents_add, cCount_add, cSize_add, toContrib, cEvents, cCount, cSize] at h hc hs
  simp only [search_loop_eq_body]
  show (((search_loop_body fs start_dir delete drives tree).events ++ _ : List Event) :
    Multiset Event) = _
  rw [← Multiset.coe_add, h, hc, hs]
  simp [initState, cEvents, cCount, cSize]

/-- The classifier verdict search_loop reaches for one regular file: the
final value of the broken flag computed by lines 261 to 286. -/
def classifiedBroken (fs : PyFS) (drives : List String) (path : String)
    (info : FileInfo) : Bool :=
  (visitFile fs drives path info).1

mutual
/-- Full paths of the files of the tree that the walk visits and classifies
broken.  Files inside directories whose listing is denied are not visited
and do not appear. -/
def brokenFilesTree (fs : PyFS) (drives : List String) (p : String) :
    DirTree → Multiset String
  | DirTree.mk true _ => 0
  | DirTree.mk false es => brokenFilesEntries fs drives p es
/-- Broken-classified full paths among an entry list of the directory at
path p. -/
def brokenFilesEntries (fs : PyFS) (drives : List String) (p : String) :
    List Entry → Multiset String
  | [] => 0
  | Entry.file name info :: es =>
    (if classifiedBroken fs drives (pjoin p name) info then ({pjoin p name} : Multiset String)
      else 0) + brokenFilesEntries fs drives p es
  | Entry.subdir name t :: es =>
    brokenFilesTree fs drives (pjoin p name) t + brokenFilesEntries fs drives p es
end

mutual
/-- Number of directories of the tree the walk dequeues for listing: every
directory reachable through non-denied ancestors, denied directories
included (their listing is attempted and fails). -/
def totalDirsTree : DirTree → Nat
  | DirTree.mk true _ => 1
  | DirTree.mk false es => 1 + totalDirsEntries es
/-- Directories reachable through an entry list. -/
def totalDirsEntries : List Entry → Nat
  | [] => 0
  | Entry.file _ _ :: es => totalDirsEntries es
  | Entry.subdir _ t :: es => totalDirsTree t + totalDirsEntries es
end

/-- Whether an event is the per-shortcut found-broken console line printed
by line 293 of the source. -/
def isFoundBroken : Event → Bool
  | Event.foundBroken _ => true
  | _ => false

/-- Whether an event is one of the two final lines of a run (elapsed time,
line 306, and the summary, line 307). -/
def isFinal : Event → Bool
  | Event.took => true
  | Event.summary _ _ => true
  | _ => false

/-- The shortcut path an event names, for the events that embed one. -/
def eventPath : Event → String
  | Event.foundBroken p => p
  | Event.foundMissingDrive _ p => p
  | Event.exceptionReport p => p
  | _ => ""

/-- Paths named by the found-broken lines among a multiset of events. -/
def foundBrokenPaths (m : Multiset Event) : Multiset String :=
  (m.filter (fun e => isFoundBroken e = true)).map eventPath

/-- The final lines among a multiset of events. -/
def finalEvents (m : Multiset Event) : Multiset Event :=
  m.filter (fun e => isFinal e = true)

theorem foundBrokenPaths_add (a b : Multiset Event) :
    foundBrokenPaths (a + b) = foundBrokenPaths a + foundBrokenPaths b := by
  simp [foundBrokenPaths, Multiset.filter_add]

theorem finalEvents_add (a b : Multiset Event) :
    finalEvents (a + b) = finalEvents a + finalEvents b := by
  simp [finalEvents, Multiset.filter_add]

theorem visitFile_events_shape (fs : PyFS) (drives : List String) (path : String)
    (info : FileInfo) :
    ∀ e ∈ (visitFile fs drives path info).2, isFoundBroken e = false ∧ isFinal e = false := by
  unfold visitFile
  split
  · simp
  · simp [isFoundBroken, isFinal]
  · simp [isFoundBroken, isFinal]
  · split
    · simp
    · rename_i sc heq
      by_cases hd : splitdriveDrive sc.TargetPath ∈ drives <;>
        simp [hd, isFoundBroken, isFinal]
  · split
    · simp
    · simp
    · simp [isFoundBroken, isFinal]
    · simp [isFoundBroken, isFinal]

theorem foundBrokenPaths_coe_zero (l : List Event)
    (h : ∀ e ∈ l, isFoundBroken e = false) :
    foundBrokenPaths (l : Multiset Event) = 0 := by
  unfold foundBrokenPaths
  rw [Multiset.filter_eq_nil.mpr]
  · simp
  · intro e he
    simp [h e (Multiset.mem_coe.mp he)]

theorem finalEvents_coe_zero (l : List Event)
    (h : ∀ e ∈ l, isFinal e = false) :
    finalEvents (l : Multiset Event) = 0 := by
  unfold finalEvents
  rw [Multiset.filter_eq_nil.mpr]
  intro e he
  simp [h e (Multiset.mem_coe.mp he)]

theorem fileContrib_removed (fs : PyFS) (drives : List String) (delete : Bool)
    (path : String) (info : FileInfo) :
    cRemoved (fileContrib fs drives delete path info)
      = if delete then
          (if classifiedBroken fs drives path info then ({path} : Multiset String) else 0)
        else 0 := by
  unfold fileContrib cRemoved classifiedBroken
  cases delete <;> cases hb : (visitFile fs drives path info).1 <;> simp [hb]

theorem foundBrokenPaths_zero : foundBrokenPaths 0 = 0 := by
  simp [foundBrokenPaths]

theorem finalEvents_zero : finalEvents 0 = 0 := by
  simp [finalEvents]

theorem foundBrokenPaths_fb_singleton (p : String) :
    foundBrokenPaths ({Event.foundBroken p} : Multiset Event) = {p} := by
  simp [foundBrokenPaths, Multiset.filter_singleton, isFoundBroken, eventPath]

theorem finalEvents_fb_singleton (p : String) :
    finalEvents ({Event.foundBroken p} : Multiset Event) = 0 := by
  simp [finalEvents, Multiset.filter_singleton, isFinal]

theorem fileContrib_fbPaths (fs : PyFS) (drives : List String) (path : String)
    (info : FileInfo) :
    foundBrokenPaths (cEvents (fileContrib fs drives false path info))
      = if classifiedBroken fs drives path info then ({path} : Multiset String) else 0 := by
  have hz : foundBrokenPaths ((visitFile fs drives path info).2 : Multiset Event) = 0 :=
    foundBrokenPaths_coe_zero _ (fun e he => (visitFile_events_shape fs drives path info e he).1)
  unfold fileContrib cEvents classifiedBroken
  cases hb : (visitFile fs drives path info).1 <;>
    simp [hb, foundBrokenPaths_add, hz, foundBrokenPaths_fb_singleton, foundBrokenPaths_zero]

theorem fileContrib_finalEvents (fs : PyFS) (drives : List String) (delete : Bool)
    (path : String) (info : FileInfo) :
    finalEvents (cEvents (fileContrib fs drives delete path info)) = 0 := by
  have hz : finalEvents ((visitFile fs drives path info).2 : Multiset Event) = 0 :=
    finalEvents_coe_zero _ (fun e he => (visitFile_events_shape fs drives path info e he).2)
  unfold fileContrib cEvents
  cases hb : (visitFile fs drives path info).1 <;> cases delete <;>
    simp [hb, finalEvents_add, hz, finalEvents_fb_singleton, finalEvents_zero]

theorem fileContrib_dirs (fs : PyFS) (drives : List String) (delete : Bool)
    (path : String) (info : FileInfo) :
    cDirs (fileContrib fs drives delete path info) = 0 := rfl

mutual
theorem collectTree_removed (fs : PyFS) (drives : List String) (delete : Bool) (p : String) :
    ∀ t : DirTree, cRemoved (collectTree fs drives delete p t)
      = if delete then brokenFilesTree fs drives p t else 0
  | DirTree.mk true es => by
    cases delete <;> simp [collectTree, brokenFilesTree, cRemoved]
  | DirTree.mk false es => by
    have ih := collectEntries_removed fs drives delete p es
    simp only [collectTree, brokenFilesTree, cRemoved_add, ih]
    cases delete <;> simp [cRemoved]
termination_by t => treeSize t
decreasing_by all_goals (simp only [treeSize, entriesSize]; omega)
theorem collectEntries_removed (fs : PyFS) (drives : List String) (delete : Bool) (p : String) :
    ∀ es : List Entry, cRemoved (collectEntries fs drives delete p es)
      = if delete then brokenFilesEntries fs drives p es else 0
  | [] => by
    cases delete <;> simp [collectEntries, brokenFilesEntries, cRemoved]
  | Entry.file name info :: es => by
    have ih := collectEntries_removed fs drives delete p es
    simp only [collectEntries, brokenFilesEntries, cRemoved_add, ih, fileContrib_removed]
    cases delete <;> simp
  | Entry.subdir name t :: es => by
    have ihT := collectTree_removed fs drives delete (pjoin p name) t
    have ih := collectEntries_removed fs drives delete p es
    simp only [collectEntries, brokenFilesEntries, cRemoved_add, ih, ihT]
    cases delete <;> simp
termination_by es => entriesSize es
decreasing_by all_goals (simp only [treeSize, entriesSize]; omega)
end

mutual
theorem collectTree_dirs (fs : PyFS) (drives : List String) (delete : Bool) (p : String) :
    ∀ t : DirTree, cDirs (collectTree fs drives delete p t) = totalDirsTree t
  | DirTree.mk true es => by
    simp [collectTree, totalDirsTree, cDirs]
  | DirTree.mk false es => by
    have ih := collectEntries_dirs fs drives delete p es
    simp only [cDirs] at ih
    simp [collectTree, totalDirsTree, cDirs_add, ih, cDirs]
termination_by t => treeSize t
decreasing_by all_goals (simp only [treeSize, entriesSize]; omega)
theorem collectEntries_dirs (fs : PyFS) (drives : List String) (delete : Bool) (p : String) :
    ∀ es : List Entry, cDirs (collectEntries fs drives delete p es) = totalDirsEntries es
  | [] => by
    simp [collectEntries, totalDirsEntries, cDirs]
  | Entry.file name info :: es => by
    have ih := collectEntries_dirs fs drives delete p es
    simp [collectEntries, totalDirsEntries, cDirs_add, ih, fileContrib_dirs]
  | Entry.subdir name t :: es => by
    have ihT := collectTree_dirs fs drives delete (pjoin p name) t
    have ih := collectEntries_dirs fs drives delete p es
    simp [collectEntries, totalDirsEntries, cDirs_add, ih, ihT]
termination_by es => entriesSize es
decreasing_by all_goals (simp only [treeSize, entriesSize]; omega)
end

mutual
theorem collectTree_final (fs : PyFS) (drives : List String) (delete : Bool) (p : String) :
    ∀ t : DirTree, finalEvents (cEvents (collectTree fs drives delete p t)) = 0
  | DirTree.mk true es => by
    simp [collectTree, cEvents, finalEvents, Multiset.filter_singleton, isFinal]
  | DirTree.mk false es => by
    have ih := collectEntries_final fs drives delete p es
    simp only [cEvents] at ih
    simp [collectTree, cEvents_add, finalEvents_add, ih, cEvents, finalEvents_zero]
termination_by t => treeSize t
decreasing_by all_goals (simp only [treeSize, entriesSize]; omega)
theorem collectEntries_final (fs : PyFS) (drives : List String) (delete : Bool) (p : String) :
    ∀ es : List Entry, finalEvents (cEvents (collectEntries fs drives delete p es)) = 0
  | [] => by
    simp [collectEntries, cEvents, finalEvents_zero]
  | Entry.file name info :: es => by
    have ih := collectEntries_final fs drives delete p es
    simp [collectEntries, cEvents_add, finalEvents_add, ih, fileContrib_finalEvents]
  | Entry.subdir name t :: es => by
    have ihT := collectTree_final fs drives delete (pjoin p name) t
    have ih := collectEntries_final fs drives delete p es
    simp [collectEntries, cEvents_add, finalEvents_add, ih, ihT]
termination_by es => entriesSize es
decreasing_by all_goals (simp only [treeSize, entriesSize]; omega)
end

mutual
theorem collectTree_fb (fs : PyFS) (drives : List String) (p : String) :
    ∀ t : DirTree, foundBrokenPaths (cEvents (collectTree fs drives false p t))
      = brokenFilesTree fs drives p t
  | DirTree.mk true es => by
    simp [collectTree, brokenFilesTree, cEvents, foundBrokenPaths,
      Multiset.filter_singleton, isFoundBroken]
  | DirTree.mk false es => by
    have ih := collectEntries_fb fs drives p es
    simp only [cEvents] at ih
    simp [collectTree, brokenFilesTree, cEvents_add, foundBrokenPaths_add, ih, cEvents,
      foundBrokenPaths_zero]
termination_by t => treeSize t
decreasing_by all_goals (simp only [treeSize, entriesSize]; omega)
theorem collectEntries_fb (fs : PyFS) (drives : List String) (p : String) :
    ∀ es : List Entry, foundBrokenPaths (cEvents (collectEntries fs drives false p es))
      = brokenFilesEntries fs drives p es
  | [] => by
    simp [collectEntries, brokenFilesEntries, cEvents, foundBrokenPaths_zero]
  | Entry.file name info :: es => by
    have ih := collectEntries_fb fs drives p es
    simp [collectEntries, brokenFilesEntries, cEvents_add, foundBrokenPaths_add, ih,
      fileContrib_fbPaths]
  | Entry.subdir name t :: es => by
    have ihT := collectTree_fb fs drives (pjoin p name) t
    have ih := collectEntries_fb fs drives p es
    simp [collectEntries, brokenFilesEntries, cEvents_add, foundBrokenPaths_add, ih, ihT]
termination_by es => entriesSize es
decreasing_by all_goals (simp only [treeSize, entriesSize]; omega)
end

mutual
/-- The scanned tree after deleting, among its reachable files, those whose
full path occurs in the given list: the effect on the tree of the os.remove
calls of a run.  Directories whose listing is denied are never descended
into, so their contents are untouched. -/
def removeFilesTree (paths : List String) (p : String) : DirTree → DirTree
  | DirTree.mk true es => DirTree.mk true es
  | DirTree.mk false es => DirTree.mk false (removeFilesEntries paths p es)
/-- File removal inside an entry list of the directory at path p. -/
def removeFilesEntries (paths : List String) (p : String) : List Entry → List Entry
  | [] => []
  | Entry.file name info :: es =>
    if pjoin p name ∈ paths then removeFilesEntries paths p es
    else Entry.file name info :: removeFilesEntries paths p es
  | Entry.subdir name t :: es =>
    Entry.subdir name (removeFilesTree paths (pjoin p name) t) :: removeFilesEntries paths p es
end

mutual
theorem removeFilesTree_nil (p : String) : ∀ t : DirTree, removeFilesTree [] p t = t
  | DirTree.mk true es => by simp [removeFilesTree]
  | DirTree.mk false es => by
    have ih := removeFilesEntries_nil p es
    simp [removeFilesTree, ih]
termination_by t => treeSize t
decreasing_by all_goals (simp only [treeSize, entriesSize]; omega)
theorem removeFilesEntries_nil (p : String) : ∀ es : List Entry, removeFilesEntries [] p es = es
  | [] => by simp [removeFilesEntries]
  | Entry.file name info :: es => by
    have ih := removeFilesEntries_nil p es
    simp [removeFilesEntries, ih]
  | Entry.subdir name t :: es => by
    have ihT := removeFilesTree_nil (pjoin p name) t
    have ih := removeFilesEntries_nil p es
    simp [removeFilesEntries, ih, ihT]
termination_by es => entriesSize es
decreasing_by all_goals (simp only [treeSize, entriesSize]; omega)
end

theorem shortcut_has_ext_of_ext (path t ext : String) (h : strLower (extOf path) = ext) :
    shortcut_has_ext ⟨path, t⟩ ext = true := by
  simp [shortcut_has_ext, h]

theorem shortcut_has_ext_ne (path t ext ext2 : String) (h : strLower (extOf path) = ext)
    (hne : ext ≠ ext2) : shortcut_has_ext ⟨path, t⟩ ext2 = false := by
  simp [shortcut_has_ext, h, hne]

theorem is_broken_shortcut_url (fs : PyFS) (path t : String) (sz : Nat)
    (hurl : strLower (extOf path) = ".url") :
    is_broken_shortcut fs path ⟨some t, sz⟩ = Except.ok (!(is_valid_url fs t)) := by
  show is_broken_shortcut_obj fs ⟨path, t⟩ = _
  unfold is_broken_shortcut_obj
  rw [shortcut_has_ext_ne path t ".url" FILE_SHORTCUT_EXT hurl (by decide),
    shortcut_has_ext_of_ext path t NET_SHORTCUT_EXT hurl]
  simp

theorem is_broken_shortcut_lnk (fs : PyFS) (path t : String) (sz : Nat)
    (hlnk : strLower (extOf path) = ".lnk") (ht : t ≠ "") :
    is_broken_shortcut fs path ⟨some t, sz⟩
      = Except.ok (!(fs.isfile t || fs.isdir t)) := by
  show is_broken_shortcut_obj fs ⟨path, t⟩ = _
  unfold is_broken_shortcut_obj
  rw [shortcut_has_ext_of_ext path t FILE_SHORTCUT_EXT hlnk]
  simp [ht]

theorem is_target_drive_missing_lnk (fs : PyFS) (path t : String) (sz : Nat)
    (hlnk : strLower (extOf path) = ".lnk") (ht : t ≠ "") :
    is_target_drive_missing fs path ⟨some t, sz⟩
      = Except.ok (!(fs.pexists (splitdriveDrive t))) := by
  show is_target_drive_missing_obj fs ⟨path, t⟩ = _
  unfold is_target_drive_missing_obj
  rw [shortcut_has_ext_of_ext path t FILE_SHORTCUT_EXT hlnk]
  simp [ht]

theorem is_target_drive_missing_url (fs : PyFS) (path t : String) (sz : Nat)
    (hurl : strLower (extOf path) = ".url") :
    is_target_drive_missing fs path ⟨some t, sz⟩ = Except.ok false := by
  show is_target_drive_missing_obj fs ⟨path, t⟩ = _
  unfold is_target_drive_missing_obj
  rw [shortcut_has_ext_ne path t ".url" FILE_SHORTCUT_EXT hurl (by decide),
    shortcut_has_ext_of_ext path t NET_SHORTCUT_EXT hurl]
  simp

/-- Modelled from the amended specification sentence for NetLink brokenness:
when the target URI's scheme is file and it names a local path (no
network-location component and a nonempty path component), broken exactly
when neither a file nor a directory exists at the named local path (the
path component with surrounding slashes stripped); otherwise broken exactly
when the URI is not well-formed as scheme plus network location, that is,
when it lacks a scheme or lacks a network-location component. -/
def netLinkBrokenSpec (fs : PyFS) (url : String) : Bool :=
  let r := urlparse url
  if r.scheme = "file" ∧ r.netloc = "" ∧ r.path ≠ "" then
    !(fs.isfile (stripSlash r.path) || fs.isdir (stripSlash r.path))
  else
    !(decide (r.scheme ≠ "") && decide (r.netloc ≠ ""))

theorem not_is_valid_url_eq_spec (fs : PyFS) (t : String) :
    (!(is_valid_url fs t)) = netLinkBrokenSpec fs t := by
  unfold is_valid_url netLinkBrokenSpec
  by_cases hc : (urlparse t).scheme = "file" ∧ (urlparse t).netloc = "" ∧ (urlparse t).path ≠ ""
  · have h1 : (urlparse t).scheme ≠ "" := by
      rw [hc.1]; decide
    rw [if_pos ⟨h1, hc⟩, if_pos hc]
  · rw [if_neg (fun h => hc ⟨h.2.1, h.2.2.1, h.2.2.2⟩), if_neg hc]
    by_cases h1 : (urlparse t).scheme = "" <;> by_cases h2 : (urlparse t).netloc = "" <;>
      simp [h1, h2]

/-- A filesystem oracle on which no path exists at all. -/
def fsNone : PyFS := ⟨fun _ => false, fun _ => false, fun _ => false⟩

/-- Witness oracle: the file C:/tmp/x exists, the file Q:\f exists, and the
drive Q: is mounted; nothing else exists. -/
def fsW : PyFS :=
  ⟨fun s => s == "C:/tmp/x" || s == "Q:\\f", fun _ => false, fun s => s == "Q:"⟩

/-- C1 (amended): for a .url shortcut with a recorded target, is_broken_shortcut
returns exactly the verdict of the amended NetLink rule: when the target URI
has scheme file, no network-location component and a nonempty path, broken
iff neither a file nor a directory exists at the named local path; otherwise
broken iff the URI lacks a scheme or lacks a network-location component
(rather than lacking both, as the original claim put it). -/
theorem C1_url_broken_iff (fs : PyFS) (path t : String) (sz : Nat)
    (hurl : strLower (extOf path) = ".url") :
    is_broken_shortcut fs path ⟨some t, sz⟩ = Except.ok (netLinkBrokenSpec fs t) := by
  rw [is_broken_shortcut_url fs path t sz hurl, not_is_valid_url_eq_spec]

/-- C1 counterexample: the .url shortcut targeting mailto:x@y.z is classified
broken by the code, although its URI does have a scheme and therefore does
not lack both a scheme and a network-location component, so the original
claim would classify it not-broken. -/
theorem C1_counterexample :
    is_broken_shortcut fsNone "a.url" ⟨some "mailto:x@y.z", 1⟩ = Except.ok true
    ∧ ¬((urlparse "mailto:x@y.z").scheme = "" ∧ (urlparse "mailto:x@y.z").netloc = "") :=
  ⟨rfl, by decide⟩

/-- C1 witness: the amended rule evaluated on a concrete working file URI. -/
theorem C1_witness :
    strLower (extOf "w.url") = ".url"
    ∧ is_broken_shortcut fsW "w.url" ⟨some "file:///C:/tmp/x", 7⟩
        = Except.ok (netLinkBrokenSpec fsW "file:///C:/tmp/x") :=
  ⟨by decide, C1_url_broken_iff fsW "w.url" "file:///C:/tmp/x" 7 (by decide)⟩

/-- C10: for a .url shortcut whose target URI has scheme file together with a
nonempty network-location component, the local-path existence check is
skipped: is_broken_shortcut returns ok false for every filesystem oracle. -/
theorem C10_file_url_with_netloc_not_broken (fs : PyFS) (path t : String) (sz : Nat)
    (hurl : strLower (extOf path) = ".url")
    (hscheme : (urlparse t).scheme = "file")
    (hnet : (urlparse t).netloc ≠ "") :
    is_broken_shortcut fs path ⟨some t, sz⟩ = Except.ok false := by
  rw [is_broken_shortcut_url fs path t sz hurl]
  have hv : is_valid_url fs t = true := by
    unfold is_valid_url
    rw [if_neg (fun h => hnet h.2.2.1)]
    simp [hscheme, hnet]
  rw [hv]
  rfl

/-- C10 witness: a file URI with host evaluated on the empty filesystem. -/
theorem C10_witness :
    (strLower (extOf "n.url") = ".url"
      ∧ (urlparse "file://host/share").scheme = "file"
      ∧ (urlparse "file://host/share").netloc ≠ "")
    ∧ is_broken_shortcut fsNone "n.url" ⟨some "file://host/share", 2⟩ = Except.ok false :=
  ⟨⟨by decide, by decide, by decide⟩,
    C10_file_url_with_netloc_not_broken fsNone "n.url" "file://host/share" 2
      (by decide) (by decide) (by decide)⟩

/-- C3: a .lnk shortcut with a nonempty recorded target whose target drive
exists is broken exactly when neither a file nor a directory exists at the
recorded target path, both for is_broken_shortcut and for the walker verdict
classifiedBroken; in particular an existing target is classified not-broken. -/
theorem C3_lnk_broken_iff_target_missing (fs : PyFS) (drives : List String)
    (path t : String) (sz : Nat)
    (hlnk : strLower (extOf path) = ".lnk") (ht : t ≠ "")
    (hdrive : fs.pexists (splitdriveDrive t) = true) :
    is_broken_shortcut fs path ⟨some t, sz⟩ = Except.ok (!(fs.isfile t || fs.isdir t))
    ∧ classifiedBroken fs drives path ⟨some t, sz⟩ = !(fs.isfile t || fs.isdir t)
    ∧ ((fs.isfile t || fs.isdir t) = true →
        classifiedBroken fs drives path ⟨some t, sz⟩ = false) := by
  have hb := is_broken_shortcut_lnk fs path t sz hlnk ht
  have hm := is_target_drive_missing_lnk fs path t sz hlnk ht
  rw [hdrive] at hm
  simp only [Bool.not_true] at hm
  have hc : classifiedBroken fs drives path ⟨some t, sz⟩ = !(fs.isfile t || fs.isdir t) := by
    unfold classifiedBroken visitFile
    rw [hm, hb]
  exact ⟨hb, hc, fun hex => by rw [hc, hex]; rfl⟩

/-- C3 witness: a .lnk shortcut to the existing file Q:\f on the mounted
drive Q: is classified not-broken. -/
theorem C3_witness :
    (strLower (extOf "t.lnk") = ".lnk" ∧ "Q:\\f" ≠ ""
      ∧ fsW.pexists (splitdriveDrive "Q:\\f") = true
      ∧ (fsW.isfile "Q:\\f" || fsW.isdir "Q:\\f") = true)
    ∧ is_broken_shortcut fsW "t.lnk" ⟨some "Q:\\f", 5⟩
        = Except.ok (!(fsW.isfile "Q:\\f" || fsW.isdir "Q:\\f"))
    ∧ classifiedBroken fsW [] "t.lnk" ⟨some "Q:\\f", 5⟩
        = !(fsW.isfile "Q:\\f" || fsW.isdir "Q:\\f")
    ∧ classifiedBroken fsW [] "t.lnk" ⟨some "Q:\\f", 5⟩ = false :=
  ⟨⟨by decide, by decide, by decide, by decide⟩,
    (C3_lnk_broken_iff_target_missing fsW [] "t.lnk" "Q:\\f" 5
      (by decide) (by decide) (by decide)).1,
    (C3_lnk_broken_iff_target_missing fsW [] "t.lnk" "Q:\\f" 5
      (by decide) (by decide) (by decide)).2.1,
    (C3_lnk_broken_iff_target_missing fsW [] "t.lnk" "Q:\\f" 5
      (by decide) (by decide) (by decide)).2.2 (by decide)⟩

/-- C2: is_target_drive_missing is ok of the negated existence of the drive
component of the target for a .lnk shortcut with a recorded nonempty target,
and ok false for every .url shortcut; and whenever it returns ok true the
walker classifies the file through the missing-drive branch alone, where
membership of the drive in the caller-supplied drive set decides the broken
flag, without consulting is_broken_shortcut. -/
theorem C2_drive_missing_dispatch :
    (∀ (fs : PyFS) (path t : String) (sz : Nat),
      strLower (extOf path) = ".lnk" → t ≠ "" →
      is_target_drive_missing fs path ⟨some t, sz⟩
        = Except.ok (!(fs.pexists (splitdriveDrive t))))
    ∧ (∀ (fs : PyFS) (path t : String) (sz : Nat),
      strLower (extOf path) = ".url" →
      is_target_drive_missing fs path ⟨some t, sz⟩ = Except.ok false)
    ∧ (∀ (fs : PyFS) (drives : List String) (path t : String) (sz : Nat),
      is_target_drive_missing fs path ⟨some t, sz⟩ = Except.ok true →
      visitFile fs drives path ⟨some t, sz⟩
        = if splitdriveDrive t ∈ drives
          then (false, [Event.foundMissingDrive (splitdriveDrive t) path,
                        Event.ignoringRemovable (splitdriveDrive t)])
          else (true, [Event.foundMissingDrive (splitdriveDrive t) path])) := by
  refine ⟨fun fs path t sz h1 h2 => is_target_drive_missing_lnk fs path t sz h1 h2,
          fun fs path t sz h1 => is_target_drive_missing_url fs path t sz h1,
          fun fs drives path t sz h => ?_⟩
  unfold visitFile
  rw [h]
  rfl

/-- C2 witness: a .lnk shortcut to drive A: on a machine with no drives is
dispatched through the missing-drive branch; a .url shortcut never is. -/
theorem C2_witness :
    (strLower (extOf "a.lnk") = ".lnk" ∧ "A:\\x" ≠ ""
      ∧ strLower (extOf "b.url") = ".url"
      ∧ is_target_drive_missing fsNone "a.lnk" ⟨some "A:\\x", 1⟩ = Except.ok true)
    ∧ is_target_drive_missing fsNone "a.lnk" ⟨some "A:\\x", 1⟩
        = Except.ok (!(fsNone.pexists (splitdriveDrive "A:\\x")))
    ∧ is_target_drive_missing fsNone "b.url" ⟨some "http://h/x", 1⟩ = Except.ok false
    ∧ visitFile fsNone ["A:"] "a.lnk" ⟨some "A:\\x", 1⟩
        = if splitdriveDrive "A:\\x" ∈ ["A:"]
          then (false, [Event.foundMissingDrive (splitdriveDrive "A:\\x") "a.lnk",
                        Event.ignoringRemovable (splitdriveDrive "A:\\x")])
          else (true, [Event.foundMissingDrive (splitdriveDrive "A:\\x") "a.lnk"]) :=
  ⟨⟨by decide, by decide, by decide, rfl⟩,
    C2_drive_missing_dispatch.1 fsNone "a.lnk" "A:\\x" 1 (by decide) (by decide),
    C2_drive_missing_dispatch.2.1 fsNone "b.url" "http://h/x" 1 (by decide),
    C2_drive_missing_dispatch.2.2 fsNone ["A:"] "a.lnk" "A:\\x" 1 rfl⟩

/-- C4: a .lnk shortcut whose recorded target path is empty makes the
classification block return broken false with exactly the one exception
report line, so processFile leaves the totals, the removal list and the rest
of the state unchanged and only appends that report: the file is excluded
from the broken count, the byte total and deletion in both modes. -/
theorem C4_empty_target_indeterminate (fs : PyFS) (drives : List String)
    (delete : Bool) (path : String) (sz : Nat)
    (hlnk : strLower (extOf path) = ".lnk") :
    visitFile fs drives path ⟨some "", sz⟩ = (false, [Event.exceptionReport path])
    ∧ ∀ st : LoopState, processFile fs drives delete path ⟨some "", sz⟩ st
        = { st with events := st.events ++ [Event.exceptionReport path] } := by
  have hm : is_target_drive_missing fs path ⟨some "", sz⟩
      = Except.error (ScError.noTargetPath path) := by
    show is_target_drive_missing_obj fs ⟨path, ""⟩ = _
    unfold is_target_drive_missing_obj
    rw [shortcut_has_ext_of_ext path "" FILE_SHORTCUT_EXT hlnk]
    simp
  have hv : visitFile fs drives path ⟨some "", sz⟩ = (false, [Event.exceptionReport path]) := by
    unfold visitFile
    rw [hm]
  refine ⟨hv, fun st => ?_⟩
  unfold processFile
  rw [hv]
  rfl

/-- C4 witness: the state update of an empty-target .lnk file in delete mode
is exactly one appended report line. -/
theorem C4_witness :
    strLower (extOf "e.lnk") = ".lnk"
    ∧ visitFile fsNone [] "e.lnk" ⟨some "", 0⟩ = (false, [Event.exceptionReport "e.lnk"])
    ∧ processFile fsNone [] true "e.lnk" ⟨some "", 0⟩ ⟨[], 0, 0, [], 0⟩
        = { (⟨[], 0, 0, [], 0⟩ : LoopState) with
            events := (⟨[], 0, 0, [], 0⟩ : LoopState).events ++ [Event.exceptionReport "e.lnk"] } :=
  ⟨by decide,
   (C4_empty_target_indeterminate fsNone [] true "e.lnk" 0 (by decide)).1,
   (C4_empty_target_indeterminate fsNone [] true "e.lnk" 0 (by decide)).2 ⟨[], 0, 0, [], 0⟩⟩

theorem initState_events_shape (start_dir : String) (delete : Bool) (drives : List String) :
    ∀ e ∈ (initState start_dir delete drives).events,
      isFoundBroken e = false ∧ isFinal e = false := by
  intro e he
  cases delete with
  | false =>
    simp [initState] at he
    rcases he with rfl | rfl <;> exact ⟨rfl, rfl⟩
  | true =>
    simp [initState] at he
    rcases he with rfl | rfl | rfl <;> exact ⟨rfl, rfl⟩

theorem search_loop_final_lines (fs : PyFS) (start_dir : String) (delete : Bool)
    (drives : List String) (tree : DirTree) :
    finalEvents (((search_loop fs start_dir delete drives tree).events) : Multiset Event)
      = (([Event.took,
          Event.summary (search_loop fs start_dir delete drives tree).count
            (search_loop fs start_dir delete drives tree).size] : List Event) :
          Multiset Event) := by
  have h1 : finalEvents (((initState start_dir delete drives).events : List Event) :
      Multiset Event) = 0 :=
    finalEvents_coe_zero _ (fun e he => (initState_events_shape start_dir delete drives e he).2)
  rw [search_loop_events, finalEvents_add, finalEvents_add, h1, collectTree_final,
    search_loop_count, search_loop_size]
  simp [finalEvents, Multiset.filter_coe, List.filter, isFinal]

/-- C5: in delete mode the walk removes exactly the visited files it
classifies broken: the multiset of paths passed to os.remove equals the
multiset of broken-classified reachable files of the tree; every file
classified not-broken, indeterminate, unrecognized or not a shortcut is
absent from it, and the walk performs no other filesystem mutation. -/
theorem C5_delete_removes_exactly_broken (fs : PyFS) (drives : List String)
    (start_dir : String) (tree : DirTree) :
    ((search_loop fs start_dir true drives tree).removed : Multiset String)
      = brokenFilesTree fs drives start_dir tree := by
  rw [search_loop_removed, collectTree_removed]
  simp

/-- Oracle for the C6 counterexample: drive X: exists, nothing else does. -/
def fsC6 : PyFS := ⟨fun _ => false, fun _ => false, fun d => d == "X:"⟩

/-- Tree for the C6 counterexample: one .lnk shortcut whose target path is
missing while its target drive exists. -/
def treeC6 : DirTree := DirTree.mk false [Entry.file "b.lnk" ⟨some "X:\\gone\\f", 3⟩]

/-- C6 counterexample: in delete mode the walk finds one broken shortcut
(count one, its file removed), yet no console event of the run names the
shortcut's full path, so in that mode a broken shortcut does not produce a
reported line that includes its path. -/
theorem C6_counterexample :
    classifiedBroken fsC6 [] "s\\b.lnk" ⟨some "X:\\gone\\f", 3⟩ = true
    ∧ (search_loop fsC6 "s" true [] treeC6).count = 1
    ∧ ((search_loop fsC6 "s" true [] treeC6).removed : Multiset String) = {"s\\b.lnk"}
    ∧ ∀ e ∈ (search_loop fsC6 "s" true [] treeC6).events, eventPath e ≠ "s\\b.lnk" := by
  refine ⟨by decide, ?_, ?_, ?_⟩
  · rw [search_loop_count]
    decide
  · rw [search_loop_removed]
    decide
  · have hev : ((search_loop fsC6 "s" true [] treeC6).events : Multiset Event)
        = (([Event.startingSearch "s", Event.deletingBroken, Event.ignoringDrives [],
            Event.took, Event.summary 1 3] : List Event) : Multiset Event) := by
      rw [search_loop_events]
      decide
    intro e he
    have h2 : e ∈ (([Event.startingSearch "s", Event.deletingBroken, Event.ignoringDrives [],
        Event.took, Event.summary 1 3] : List Event) : Multiset Event) := by
      rw [← hev]
      exact Multiset.mem_coe.mpr he
    have h3 := Multiset.mem_coe.mp h2
    simp only [List.mem_cons, List.not_mem_nil, or_false] at h3
    rcases h3 with rfl | rfl | rfl | rfl | rfl <;> decide

/-- C6 (amended): in report mode each broken shortcut found produces exactly
one found-broken line naming its full path and those lines name exactly the
broken-classified files (multiset equality); in delete mode a generically
broken shortcut is removed without a reported line naming it, as the
counterexample shows. -/
theorem C6_report_lines_iff_broken (fs : PyFS) (drives : List String)
    (start_dir : String) (tree : DirTree) :
    foundBrokenPaths (((search_loop fs start_dir false drives tree).events) : Multiset Event)
      = brokenFilesTree fs drives start_dir tree := by
  have h1 : foundBrokenPaths (((initState start_dir false drives).events : List Event) :
      Multiset Event) = 0 :=
    foundBrokenPaths_coe_zero _
      (fun e he => (initState_events_shape start_dir false drives e he).1)
  have h2 : foundBrokenPaths (([Event.took,
      Event.summary (cCount (collectTree fs drives false start_dir tree))
        (cSize (collectTree fs drives false start_dir tree))] : List Event) :
      Multiset Event) = 0 := by
    apply foundBrokenPaths_coe_zero
    intro e he
    simp only [List.mem_cons, List.not_mem_nil, or_false] at he
    rcases he with rfl | rfl <;> rfl
  rw [search_loop_events, foundBrokenPaths_add, foundBrokenPaths_add, h1, h2, collectTree_fb]
  simp

/-- C7: a denied directory listing is handled inside its own loop iteration:
the walk prints one permission-denied line naming that directory and
continues with exactly the remaining queue and otherwise unchanged state;
and for every tree, denied directories included, the run still ends with
the elapsed-time line and exactly one summary line. -/
theorem C7_access_denied_recovery :
    (∀ (fs : PyFS) (drives : List String) (delete : Bool) (p : String)
        (es : List Entry) (rest : List (String × DirTree)) (st : LoopState),
      searchLoopAux fs drives delete ((p, DirTree.mk true es) :: rest) st
        = searchLoopAux fs drives delete rest
            { st with events := st.events ++ [Event.permissionDenied p],
                      dirsDequeued := st.dirsDequeued + 1 })
    ∧ (∀ (fs : PyFS) (start_dir : String) (delete : Bool) (drives : List String)
        (tree : DirTree),
      finalEvents (((search_loop fs start_dir delete drives tree).events) : Multiset Event)
        = (([Event.took,
            Event.summary (search_loop fs start_dir delete drives tree).count
              (search_loop fs start_dir delete drives tree).size] : List Event) :
            Multiset Event)) :=
  ⟨fun fs drives delete p es rest st => by simp only [searchLoopAux],
   fun fs start_dir delete drives tree =>
     search_loop_final_lines fs start_dir delete drives tree⟩

/-- C8: a report-only run removes nothing, so the tree after applying its
removals is the tree itself, and a second report-only run over that tree
returns the identical state: same broken count, same byte total, identical
events and so identical reported paths. -/
theorem C8_report_idempotent (fs : PyFS) (drives : List String)
    (start_dir : String) (tree : DirTree) :
    (search_loop fs start_dir false drives tree).removed = []
    ∧ removeFilesTree (search_loop fs start_dir false drives tree).removed start_dir tree
        = tree
    ∧ search_loop fs start_dir false drives
        (removeFilesTree (search_loop fs start_dir false drives tree).removed start_dir tree)
      = search_loop fs start_dir false drives tree := by
  have h0 : ((search_loop fs start_dir false drives tree).removed : Multiset String) = 0 := by
    rw [search_loop_removed, collectTree_removed]
    simp
  have h1 : (search_loop fs start_dir false drives tree).removed = [] :=
    (Multiset.coe_eq_zero _).mp h0
  refine ⟨h1, ?_, ?_⟩
  · rw [h1, removeFilesTree_nil]
  · rw [h1, removeFilesTree_nil]

/-- C9: the while loop returns as soon as the work queue is empty; over a
whole run it dequeues exactly the reachable directories of the finite tree,
so the walk ends precisely when all queued directories have been listed (the
embedding being a total function, it terminates on every finite tree); and
every run ends with the elapsed-time line and exactly one summary line
carrying the final count and byte total. -/
theorem C9_termination_summary :
    (∀ (fs : PyFS) (drives : List String) (delete : Bool) (st : LoopState),
      searchLoopAux fs drives delete [] st = st)
    ∧ (∀ (fs : PyFS) (start_dir : String) (delete : Bool) (drives : List String)
        (tree : DirTree),
      (search_loop fs start_dir delete drives tree).dirsDequeued = totalDirsTree tree)
    ∧ (∀ (fs : PyFS) (start_dir : String) (delete : Bool) (drives : List String)
        (tree : DirTree),
      finalEvents (((search_loop fs start_dir delete drives tree).events) : Multiset Event)
        = (([Event.took,
            Event.summary (search_loop fs start_dir delete drives tree).count
              (search_loop fs start_dir delete drives tree).size] : List Event) :
            Multiset Event)) :=
  ⟨fun fs drives delete st => by simp only [searchLoopAux],
   fun fs start_dir delete drives tree => by rw [search_loop_dirs, collectTree_dirs],
   fun fs start_dir delete drives tree =>
     search_loop_final_lines fs start_dir delete drives tree⟩

end ShortcutCleaner

/-!
Sanity checks of the string helpers against the observable behaviour of the
CPython functions they embed (urllib.parse.urlparse, os.path.splitext,
ntpath.splitdrive, str.strip). -/

section SanityChecks
open ShortcutCleaner

example : urlparse "https://stackoverflow.com" = ⟨"https", "stackoverflow.com", ""⟩ := by decide
example : urlparse "file:///C:/tmp/x" = ⟨"file", "", "/C:/tmp/x"⟩ := by decide
example : urlparse "mailto:x@y.z" = ⟨"mailto", "", "x@y.z"⟩ := by decide
example : urlparse "C:\\Users\\t" = ⟨"c", "", "\\Users\\t"⟩ := by decide
example : urlparse "file://host/share" = ⟨"file", "host", "/share"⟩ := by decide
example : extOf "dir\\testfile.LnK" = ".LnK" := by decide
example : extOf "a\\..foo" = "" := by decide
example : splitdriveDrive "A:\\x\\y" = "A:" := by decide
example : splitdriveDrive "rel\\x" = "" := by decide
example : splitdriveDrive "\\\\srv\\share\\f" = "\\\\srv\\share" := by decide
example : stripSlash "/C:/tmp/x" = "C:/tmp/x" := by decide

end SanityChecks
